import Mathlib

/-!
Verification of the zip-module archive engine: a shallow embedding of
`QoreZipFile`, `ZipInputStream` and `ZipOutputStream` (from
`src/QoreZipFile.cpp`, `src/ZipInputStream.cpp`, `src/ZipOutputStream.cpp`),
with the external minizip-ng codec treated as a black box whose observable
results (entry walk, per-entry open/read results, write results) are part of
the model state.
-/

namespace Zip

/-- Codec success code (`MZ_OK` in minizip-ng). -/
def MZ_OK : Int := 0

/-- Codec end-of-directory marker (`MZ_END_OF_LIST` in minizip-ng). -/
def MZ_END_OF_LIST : Int := -100

/-- Encrypted-entry flag bit (`MZ_ZIP_FLAG_ENCRYPTED`). -/
def MZ_ZIP_FLAG_ENCRYPTED : Nat := 1

/-- Security-error classification raised by `QoreZipFile::validateExtractPath`
(each constructor corresponds to one `ZIP-SECURITY-ERROR` raise site). -/
inductive SecKind where
  | absolutePath
  | traversal
  | backslash
  deriving DecidableEq, Repr

/-- Error kinds, one per distinct raise site relevant to the claims. -/
inductive ZErr where
  | busy (n : Int)
  | alreadyClosed
  | notInMemory
  | noArchiveData
  | allocLimit (size limit : Int)
  | archiveClosed
  | notOpenForReading
  | notOpenForWriting
  | entryNotFound (name : String)
  | security (name : String) (k : SecKind)
  | openEntryFailed (encrypted : Bool) (code : Int)
  | readFailed (code : Int)
  | entriesWalk (code : Int)
  | saveAllFailed (code : Int)
  | streamNotOpen
  | streamClosed
  | streamWriteFailed (code : Int)
  | shortWrite (written requested : Int)
  deriving DecidableEq, Repr

/-- Character-scan loop of `QoreZipFile::validateExtractPath`
(QoreZipFile.cpp:292-311): `prev` is the character before the current
position (`p[-1]`), `none` at the start of the name.  At each position the
loop first tests for a `..` component (`p[0]=='.' && p[1]=='.'`, at the
start or after `'/'`, followed by end of string, `'/'` or `'\\'`), then for
a backslash. -/
def pathScan : Option Char → List Char → Option SecKind
  | _, [] => none
  | prev, c :: rest =>
    if c = '.' ∧ rest.head? = some '.' ∧ (prev = none ∨ prev = some '/') ∧
        ((rest.drop 1).head? = none ∨ (rest.drop 1).head? = some '/' ∨
          (rest.drop 1).head? = some '\\') then
      some .traversal
    else if c = '\\' then
      some .backslash
    else
      pathScan (some c) rest

/-- `QoreZipFile::validateExtractPath` (QoreZipFile.cpp:279-314): `none`
means the entry name was accepted; `some k` means rejection with a
`ZIP-SECURITY-ERROR` of kind `k`.  The `dest_path` argument of the C++
function is unused by the validation itself and omitted. -/
def validateExtractPath (entry_name : String) : Option SecKind :=
  match entry_name.data with
  | [] => none
  | c :: _ => if c = '/' then some .absolutePath else pathScan none entry_name.data

/-- Spec-side helper: the character before a `..` pair makes it a path
segment start (start of name or after a `/`). -/
def prevOk (p : Option Char) : Prop := p = none ∨ p = some '/'

/-- Spec-side helper: what may follow a `..` segment for it to count as
traversal (end of string, `/`, or `\`). -/
def tailOk (o : Option Char) : Prop := o = none ∨ o = some '/' ∨ o = some '\\'

/-- Modelled from the spec's words (§4.2): the two characters `..` occur at
position `i` of the name, at the start or immediately after a `/`, and are
followed by end-of-string, `/`, or `\`.  `prev` is the character preceding
position `0` of `l` (`none` when `l` is the whole name). -/
def dotdotAt (prev : Option Char) (l : List Char) : Nat → Prop
  | 0 => l[0]? = some '.' ∧ l[1]? = some '.' ∧ prevOk prev ∧ tailOk l[2]?
  | i + 1 =>
    l[i + 1]? = some '.' ∧ l[i + 2]? = some '.' ∧ l[i]? = some '/' ∧ tailOk l[i + 3]?

/-- Modelled from the spec's words (§4.2 "Path Security Validator"): the set
of entry names the spec says must be rejected — absolute paths, a `..`
segment at a segment start followed by a separator or end, or any
backslash. -/
def specRejected (name : String) : Prop :=
  name.data.head? = some '/' ∨ (∃ i, dotdotAt none name.data i) ∨ '\\' ∈ name.data

/-- Codec-native entry record (the fields of minizip-ng's `mz_zip_file`
that the engine reads). -/
structure MzZipFile where
  filename : String
  uncompressed_size : Nat
  compressed_size : Nat
  modified_date : Int
  crc : Nat
  compression_method : Nat
  flag : Nat
  comment : String
  deriving DecidableEq, Repr

/-- Normalized entry-info record produced by `QoreZipFile::createEntryInfo`
(the `ZipEntryInfo` hashdecl keys). -/
structure ZipEntryInfo where
  name : String
  size : Nat
  compressed_size : Nat
  modified : Int
  crc32 : Nat
  compression_method : Nat
  is_directory : Bool
  is_encrypted : Bool
  comment : Option String
  deriving DecidableEq, Repr

/-- `QoreZipFile::createEntryInfo` (QoreZipFile.cpp:316-345): maps a codec
entry record to the normalized entry info.  `is_directory` is derived as
"name is non-empty and its last character is `/`"; `is_encrypted` from the
encrypted flag bit; the comment key is only present when non-empty. -/
def createEntryInfo (f : MzZipFile) : ZipEntryInfo where
  name := f.filename
  size := f.uncompressed_size
  compressed_size := f.compressed_size
  modified := f.modified_date
  crc32 := f.crc
  compression_method := f.compression_method
  is_directory := f.filename.data.getLast? == some '/'
  is_encrypted := f.flag &&& MZ_ZIP_FLAG_ENCRYPTED != 0
  comment := if f.comment = "" then none else some f.comment

/-- One archive entry as seen through the codec black box: its directory
record plus the codec's observable behavior when this entry is opened and
read in a single full-size read (`mz_zip_reader_entry_open` /
`mz_zip_reader_entry_read` results). -/
structure CodecEntry where
  info : MzZipFile
  open_err : Int
  read_res : Except Int (List Nat)
  deriving Repr

/-- The state of a `QoreZipFile` archive session (the fields of the C++
class), together with the black-box codec's observable behavior: the list
of directory entries, an optional walk interruption (after `k` entries the
next `mz_zip_reader_goto_next_entry` returns code `e` instead of
`MZ_END_OF_LIST`), and the result code of `mz_zip_reader_save_all`.
Handles are modelled by their presence (`nullptr` ↦ `false`); the
memory-stream buffer contents are `mem_buf`. -/
structure ZipSession where
  in_memory : Bool
  closed : Bool
  active_streams : Int
  max_alloc_size : Int
  reader : Bool
  writer : Bool
  mem_stream : Bool
  mem_buf : List Nat
  password : String
  archive : List CodecEntry
  walk_fail : Option (Nat × Int)
  save_all_err : Int
  deriving Repr

/-- Entries the codec's directory walk yields before terminating (all of
them normally; the first `k` when the walk is interrupted). -/
def walkVisited (s : ZipSession) : List CodecEntry :=
  match s.walk_fail with
  | none => s.archive
  | some (k, _) => s.archive.take k

/-- The code the walk's final `goto_next`/`goto_first` call returns
(`MZ_END_OF_LIST` normally, the interrupting error otherwise). -/
def walkEndCode (s : ZipSession) : Int :=
  match s.walk_fail with
  | none => MZ_END_OF_LIST
  | some (_, e) => e

/-- `QoreZipFile::derefStream` (QoreZipFile.h:69): decrements the
active-stream counter. -/
def derefStream (s : ZipSession) : ZipSession :=
  { s with active_streams := s.active_streams - 1 }

/-- Modelled from the spec: disposal of an entry stream.  The
`ZipInputStream` destructor in src closes the codec entry handle; the call
to the session's `derefStream` on stream disposal lives in the missing
`QC_ZipInputStream`/`QC_ZipOutputStream` binding files, and is modelled
here from the spec's "keeps the session's live-stream counter incremented
until the stream is destroyed or closed" (§2, §4.3). -/
def disposeStream (s : ZipSession) : ZipSession :=
  derefStream s

/-- `QoreZipFile::close` (QoreZipFile.cpp:161-193): no-op when already
closed; fails busy when streams are active; otherwise releases the reader,
writer and memory-stream handles and sets `closed`. -/
def close (s : ZipSession) : Option ZErr × ZipSession :=
  if s.closed then
    (none, s)
  else if s.active_streams > 0 then
    (some (.busy s.active_streams), s)
  else
    (none, { s with reader := false, writer := false, mem_stream := false,
                    mem_buf := [], closed := true })

/-- `QoreZipFile::toData` (QoreZipFile.cpp:195-258): finalize an in-memory
archive to bytes.  Checks in source order: in-memory, not closed, no active
streams; then closes the writer (if present), reads the memory-stream
buffer, requires it non-empty and within `max_alloc_size`, releases the
memory stream and marks the session closed.  A successful `malloc` is
assumed (out-of-memory is not modelled). -/
def toData (s : ZipSession) : Except ZErr (List Nat) × ZipSession :=
  if !s.in_memory then
    (.error .notInMemory, s)
  else if s.closed then
    (.error .alreadyClosed, s)
  else if s.active_streams > 0 then
    (.error (.busy s.active_streams), s)
  else
    let s1 := if s.writer then { s with writer := false } else s
    if s1.mem_buf.length = 0 then
      (.error .noArchiveData, s1)
    else if (s1.mem_buf.length : Int) > s1.max_alloc_size then
      (.error (.allocLimit s1.mem_buf.length s1.max_alloc_size), s1)
    else
      (.ok s1.mem_buf, { s1 with mem_stream := false, mem_buf := [], closed := true })

/-- `QoreZipFile::checkOpenUnlocked` (QoreZipFile.cpp:260-277): `none`
when the archive is open in the required direction, otherwise the error
raised. -/
def checkOpenUnlocked (s : ZipSession) (forWrite : Bool) : Option ZErr :=
  if s.closed then some .archiveClosed
  else if forWrite ∧ !s.writer then some .notOpenForWriting
  else if !forWrite ∧ !s.reader then some .notOpenForReading
  else none

/-- Counting loop of `QoreZipFile::count` (QoreZipFile.cpp:383-388): one
increment per walk step that returns `MZ_OK`; the terminating code is never
examined. -/
def countLoop : List CodecEntry → Int → Int
  | [], n => n
  | _ :: rest, n => countLoop rest (n + 1)

/-- `QoreZipFile::count` (QoreZipFile.cpp:376-391): walks the directory and
returns the number of entries visited; any non-`MZ_OK` code — end-of-list
or a real error — just terminates the loop, and no error is raised. -/
def count (s : ZipSession) : Except ZErr Int :=
  match checkOpenUnlocked s false with
  | some e => .error e
  | none => .ok (countLoop (walkVisited s) 0)

/-- `QoreZipFile::entries` (QoreZipFile.cpp:347-374): walks the directory
mapping each entry to entry info; if the walk's final code is neither
`MZ_END_OF_LIST` nor `MZ_OK`, raises an archive error instead of returning
the partial list. -/
def entries (s : ZipSession) : Except ZErr (List ZipEntryInfo) :=
  match checkOpenUnlocked s false with
  | some e => .error e
  | none =>
    let lst := (walkVisited s).map (fun ce => createEntryInfo ce.info)
    let endc := walkEndCode s
    if endc ≠ MZ_END_OF_LIST ∧ endc ≠ MZ_OK then .error (.entriesWalk endc)
    else .ok lst

/-- Observable side effects of `QoreZipFile::read`: whether
`mz_zip_reader_entry_open` was called, and the size `malloc`'d for the
entry buffer (if any). -/
structure ReadEff where
  open_called : Bool
  alloc : Option Nat
  deriving DecidableEq, Repr

/-- `QoreZipFile::read` (QoreZipFile.cpp:404-469): locate the entry, return
empty bytes for a zero-size entry, enforce `uncompressed_size ≤
max_alloc_size` before opening the entry or allocating, open the entry
(failing with an encryption-flavored error when the entry is flagged
encrypted), allocate the declared size, read once, and return a binary
holding exactly the bytes the codec reported.  A successful `malloc` is
assumed. -/
def read (s : ZipSession) (name : String) : Except ZErr (List Nat) × ReadEff :=
  let eff0 : ReadEff := ⟨false, none⟩
  match checkOpenUnlocked s false with
  | some e => (.error e, eff0)
  | none =>
    match s.archive.find? (fun ce => ce.info.filename = name) with
    | none => (.error (.entryNotFound name), eff0)
    | some ce =>
      if ce.info.uncompressed_size = 0 then
        (.ok [], eff0)
      else if (ce.info.uncompressed_size : Int) > s.max_alloc_size then
        (.error (.allocLimit ce.info.uncompressed_size s.max_alloc_size), eff0)
      else if ce.open_err ≠ MZ_OK then
        (.error (.openEntryFailed (ce.info.flag &&& MZ_ZIP_FLAG_ENCRYPTED != 0) ce.open_err),
          ⟨true, none⟩)
      else
        match ce.read_res with
        | .error code => (.error (.readFailed code), ⟨true, some ce.info.uncompressed_size⟩)
        | .ok bytes => (.ok bytes, ⟨true, some ce.info.uncompressed_size⟩)

/-- Validation loop of `QoreZipFile::extractAll` (QoreZipFile.cpp:672-683):
the first entry (in walk order) whose name the validator rejects, with its
rejection kind. -/
def firstInvalid : List CodecEntry → Option (String × SecKind)
  | [] => none
  | ce :: rest =>
    match validateExtractPath ce.info.filename with
    | some k => some (ce.info.filename, k)
    | none => firstInvalid rest

/-- Result of `extractAll`: the error raised (if any) and whether bulk
extraction (`mz_zip_reader_save_all`, the only filesystem-writing call) was
reached. -/
structure ExtractResult where
  err : Option ZErr
  save_all_called : Bool
  deriving DecidableEq, Repr

/-- `QoreZipFile::extractAll` (QoreZipFile.cpp:665-696): first validates
every walked entry name; on the first rejection, raises the security error
and returns before `mz_zip_reader_save_all` is called; otherwise applies
the optional password and delegates to `save_all`. -/
def extractAll (s : ZipSession) (_opt_password : Option String) : ExtractResult :=
  match checkOpenUnlocked s false with
  | some e => ⟨some e, false⟩
  | none =>
    match firstInvalid (walkVisited s) with
    | some (nm, k) => ⟨some (.security nm k), false⟩
    | none =>
      if s.save_all_err ≠ MZ_OK then ⟨some (.saveAllFailed s.save_all_err), true⟩
      else ⟨none, true⟩

/-- State of a `ZipInputStream` (ZipInputStream.h:74-80): open flag,
sticky end-of-data flag, the buffered look-ahead byte (`-2` when none),
and — standing in for the codec's per-entry cursor — the bytes the codec
has yet to deliver for this entry.  `mz_zip_reader_entry_read(buf, n)` is
modelled as delivering the next `min n remaining` bytes (a well-behaved
codec), returning `0` exactly when no bytes remain or `n ≤ 0`. -/
structure ZipInputStream where
  entry_open : Bool
  eof : Bool
  peek_byte : Int
  rest : List Nat
  deriving Repr

/-- Result of one `ZipInputStream::read` call: the bytes delivered (or
error raised), the successor stream state, and how many codec
`mz_zip_reader_entry_read` calls were made. -/
structure ZISReadOut where
  res : Except ZErr (List Nat)
  st : ZipInputStream
  codec_calls : Nat
  deriving Repr

/-- Result of `ZipInputStream::peek`: the byte (or `-1` end marker, or
error), the successor state, and the number of codec read calls. -/
structure ZISPeekOut where
  res : Except ZErr Int
  st : ZipInputStream
  codec_calls : Nat
  deriving Repr

/-- `ZipInputStream::read` (ZipInputStream.cpp:48-86): fails when never
opened; returns 0 immediately once `eof` is set (without touching the
codec); otherwise first hands out the buffered peek byte (consuming it,
returning early if that fills the request), then fills the remaining limit
with one codec read; a codec result of 0 sets the sticky `eof` flag. -/
def zisRead (st : ZipInputStream) (limit : Int) : ZISReadOut :=
  if !st.entry_open then ⟨.error .streamNotOpen, st, 0⟩
  else if st.eof then ⟨.ok [], st, 0⟩
  else
    let pre : List Nat := if st.peek_byte ≥ 0 then [st.peek_byte.toNat] else []
    let st1 := if st.peek_byte ≥ 0 then { st with peek_byte := -2 } else st
    let limit1 := if st.peek_byte ≥ 0 then limit - 1 else limit
    if st.peek_byte ≥ 0 ∧ limit1 ≤ 0 then
      ⟨.ok pre, st1, 0⟩
    else
      let k := min limit1.toNat st1.rest.length
      ⟨.ok (pre ++ st1.rest.take k),
        { st1 with rest := st1.rest.drop k, eof := if k = 0 then true else st1.eof }, 1⟩

/-- `ZipInputStream::peek` (ZipInputStream.cpp:88-119): fails when never
opened; returns `-1` once `eof` is set; returns the buffered byte if one is
present; otherwise reads exactly one byte from the codec and buffers it,
or sets `eof` and returns `-1` at first exhaustion. -/
def zisPeek (st : ZipInputStream) : ZISPeekOut :=
  if !st.entry_open then ⟨.error .streamNotOpen, st, 0⟩
  else if st.eof then ⟨.ok (-1), st, 0⟩
  else if st.peek_byte ≥ 0 then ⟨.ok st.peek_byte, st, 0⟩
  else
    match st.rest with
    | [] => ⟨.ok (-1), { st with eof := true }, 1⟩
    | b :: rest' => ⟨.ok b, { st with peek_byte := b, rest := rest' }, 1⟩

/-- The bytes still deliverable through the stream: the buffered peek byte
(if any) followed by what the codec has yet to deliver. -/
def zisAvail (st : ZipInputStream) : List Nat :=
  (if st.peek_byte ≥ 0 then [st.peek_byte.toNat] else []) ++ st.rest

/-- State of a `ZipOutputStream` (ZipOutputStream.h:74-78): entry-open and
closed flags. -/
structure ZipOutputStream where
  entry_open : Bool
  closed : Bool
  deriving DecidableEq, Repr

/-- Result of one `ZipOutputStream::write` call: the error raised (if any)
and the number of codec `mz_zip_writer_entry_write` calls made. -/
structure ZOSWriteOut where
  err : Option ZErr
  codec_calls : Nat
  deriving DecidableEq, Repr

/-- `ZipOutputStream::write` (ZipOutputStream.cpp:82-105): fails when
closed or never opened; a request of `count ≤ 0` returns silently with no
codec call; otherwise issues exactly one codec write of `count` bytes —
`codec_written` is the black-box codec's return value — raising an error on
a negative result or on a short write (no retry). -/
def zosWrite (st : ZipOutputStream) (count : Int) (codec_written : Int) : ZOSWriteOut :=
  if st.closed then ⟨some .streamClosed, 0⟩
  else if !st.entry_open then ⟨some .streamNotOpen, 0⟩
  else if count ≤ 0 then ⟨none, 0⟩
  else if codec_written < 0 then ⟨some (.streamWriteFailed codec_written), 1⟩
  else if codec_written ≠ count then ⟨some (.shortWrite codec_written count), 1⟩
  else ⟨none, 1⟩

/-! Concrete inputs used by the witness theorems. -/

/-- A small plain entry. -/
def sampleEntryTxt : CodecEntry := ⟨⟨"a.txt", 3, 3, 0, 0, 8, 0, ""⟩, 0, .ok [10, 20, 30]⟩

/-- An entry whose name contains a traversal segment. -/
def sampleEntryBad : CodecEntry := ⟨⟨"../x", 3, 3, 0, 0, 8, 0, ""⟩, 0, .ok [1, 2, 3]⟩

/-- An entry whose declared size exceeds the sample allocation ceiling. -/
def sampleEntryBig : CodecEntry := ⟨⟨"big.bin", 2000, 100, 0, 0, 8, 0, ""⟩, 0, .ok []⟩

/-- An entry for which the codec reports 2 bytes of a declared 5. -/
def sampleEntryShort : CodecEntry := ⟨⟨"s.bin", 5, 5, 0, 0, 8, 0, ""⟩, 0, .ok [7, 8]⟩

/-- A file-backed read session over the sample entries. -/
def readSession : ZipSession :=
  { in_memory := false, closed := false, active_streams := 0, max_alloc_size := 1024,
    reader := true, writer := false, mem_stream := false, mem_buf := [], password := "",
    archive := [sampleEntryTxt, sampleEntryBig, sampleEntryShort], walk_fail := none,
    save_all_err := 0 }

/-- A read session containing an entry with a malicious name. -/
def badSession : ZipSession := { readSession with archive := [sampleEntryTxt, sampleEntryBad] }

/-- A read session whose directory walk is interrupted after one entry by
codec error `-3`. -/
def walkFailSession : ZipSession := { readSession with walk_fail := some (1, -3) }

/-- A file-backed session with one active stream. -/
def busyFileSession : ZipSession := { readSession with active_streams := 1 }

/-- An in-memory write session with one active stream and a zero
allocation ceiling. -/
def busyMemSession : ZipSession :=
  { in_memory := true, closed := false, active_streams := 1, max_alloc_size := 0,
    reader := false, writer := true, mem_stream := true, mem_buf := [1], password := "",
    archive := [], walk_fail := none, save_all_err := 0 }

/-- An in-memory write session ready to be finalized. -/
def okMemSession : ZipSession :=
  { busyMemSession with active_streams := 0, max_alloc_size := 100, mem_buf := [1, 2] }

/-- An open input stream with no buffered peek byte and three bytes left. -/
def sampleInput : ZipInputStream := ⟨true, false, -2, [65, 66, 67]⟩

/-- An open output stream. -/
def sampleOutput : ZipOutputStream := ⟨true, false⟩

/-! Helper lemmas. -/

theorem dotdotAt_shift (prev : Option Char) (c : Char) (rest : List Char) (i : Nat) :
    dotdotAt prev (c :: rest) (i + 1) ↔ dotdotAt (some c) rest i := by
  cases i with
  | zero =>
    simp only [dotdotAt, List.getElem?_cons_succ, List.getElem?_cons_zero, prevOk]
    constructor
    · rintro ⟨h1, h2, h3, h4⟩
      refine ⟨h1, h2, ?_, h4⟩
      right
      simpa using h3
    · rintro ⟨h1, h2, h3, h4⟩
      refine ⟨h1, h2, ?_, h4⟩
      rcases h3 with h | h
      · exact absurd h (by simp)
      · simpa using h
  | succ j =>
    simp only [dotdotAt, List.getElem?_cons_succ]

theorem pathScan_none_iff (l : List Char) (prev : Option Char) :
    pathScan prev l = none ↔ ((∀ i, ¬ dotdotAt prev l i) ∧ '\\' ∉ l) := by
  induction l generalizing prev with
  | nil =>
    simp only [pathScan, List.not_mem_nil, not_false_iff, and_true, true_iff]
    intro i
    cases i <;> simp [dotdotAt]
  | cons c rest ih =>
    by_cases hdd : c = '.' ∧ rest.head? = some '.' ∧ (prev = none ∨ prev = some '/') ∧
        ((rest.drop 1).head? = none ∨ (rest.drop 1).head? = some '/' ∨
          (rest.drop 1).head? = some '\\')
    · simp only [pathScan, if_pos hdd]
      constructor
      · intro h; exact absurd h (by simp)
      · rintro ⟨hall, -⟩
        exfalso
        apply hall 0
        obtain ⟨h1, h2, h3, h4⟩ := hdd
        refine ⟨by simpa using h1, by simpa [List.head?_eq_getElem?] using h2,
          h3, ?_⟩
        have hdr : (rest.drop 1).head? = rest[1]? := by
          cases rest with
          | nil => simp
          | cons b bs => simp [List.head?_eq_getElem?]
        rw [hdr] at h4
        simp only [tailOk, List.getElem?_cons_succ]
        exact h4
    · by_cases hbs : c = '\\'
      · simp only [pathScan, if_neg hdd, if_pos hbs]
        constructor
        · intro h; exact absurd h (by simp)
        · rintro ⟨-, hnb⟩
          subst hbs
          exact absurd (List.mem_cons_self _ _) hnb
      · simp only [pathScan, if_neg hdd, if_pos hbs, if_neg hbs, ih]
        constructor
        · rintro ⟨hall, hnb⟩
          refine ⟨?_, ?_⟩
          · intro i
            cases i with
            | zero =>
              intro hc
              apply hdd
              obtain ⟨h1, h2, h3, h4⟩ := hc
              refine ⟨by simpa using h1, by simpa [List.head?_eq_getElem?] using h2,
                h3, ?_⟩
              have hdr : (rest.drop 1).head? = rest[1]? := by
                cases rest with
                | nil => simp
                | cons b bs => simp [List.head?_eq_getElem?]
              rw [hdr]
              simp only [tailOk, List.getElem?_cons_succ] at h4
              exact h4
            | succ j =>
              rw [dotdotAt_shift]
              exact hall j
          · simp only [List.mem_cons, not_or]
            exact ⟨fun h => hbs h.symm, hnb⟩
        · rintro ⟨hall, hnb⟩
          refine ⟨?_, ?_⟩
          · intro i
            rw [← dotdotAt_shift prev c rest i]
            exact hall (i + 1)
          · intro h
            exact hnb (by simp [List.mem_cons, h])

/-- The validator accepts a name exactly when the spec's rejection predicate
fails. -/
theorem validateExtractPath_none_iff (name : String) :
    validateExtractPath name = none ↔ ¬ specRejected name := by
  unfold validateExtractPath specRejected
  cases hd : name.data with
  | nil =>
    simp only [hd]
    constructor
    · rintro - h
      rcases h with h | ⟨i, h⟩ | h
      · simp at h
      · cases i <;> simp [dotdotAt] at h
      · simp at h
    · intro; trivial
  | cons c rest =>
    by_cases hc : c = '/'
    · simp [hd, hc]
    · simp only [hd, if_neg hc]
      rw [pathScan_none_iff]
      constructor
      · rintro ⟨hall, hnb⟩ h
        rcases h with h | ⟨i, h⟩ | h
        · simp only [List.head?_cons, Option.some.injEq] at h
          exact hc h
        · exact hall i h
        · exact hnb h
      · intro h
        refine ⟨fun i hi => h (Or.inr (Or.inl ⟨i, hi⟩)), fun hb => h (Or.inr (Or.inr hb))⟩

theorem countLoop_eq (l : List CodecEntry) (n : Int) :
    countLoop l n = n + l.length := by
  induction l generalizing n with
  | nil => simp [countLoop]
  | cons c rest ih =>
    simp only [countLoop, ih, List.length_cons]
    push_cast
    ring

theorem checkOpen_read_none (s : ZipSession) (hc : s.closed = false) (hr : s.reader = true) :
    checkOpenUnlocked s false = none := by
  simp [checkOpenUnlocked, hc, hr]

theorem firstInvalid_eq_none (l : List CodecEntry) :
    firstInvalid l = none ↔ ∀ ce ∈ l, validateExtractPath ce.info.filename = none := by
  induction l with
  | nil => simp [firstInvalid]
  | cons ce rest ih =>
    cases hv : validateExtractPath ce.info.filename with
    | none => simp [firstInvalid, hv, ih]
    | some k => simp [firstInvalid, hv]

theorem toData_not_in_memory (s : ZipSession) (h : s.in_memory = false) :
    toData s = (.error .notInMemory, s) := by
  simp [toData, h]

theorem toData_already_closed (s : ZipSession) (h1 : s.in_memory = true)
    (h2 : s.closed = true) :
    toData s = (.error .alreadyClosed, s) := by
  simp [toData, h1, h2]

theorem toData_busy_err (s : ZipSession) (h1 : s.in_memory = true) (h2 : s.closed = false)
    (h3 : s.active_streams > 0) :
    toData s = (.error (.busy s.active_streams), s) := by
  simp [toData, h1, h2, h3]

theorem toData_success (s : ZipSession) (h1 : s.in_memory = true) (h2 : s.closed = false)
    (h3 : ¬ s.active_streams > 0) (h4 : s.mem_buf.length ≠ 0)
    (h5 : ¬ ((s.mem_buf.length : Int) > s.max_alloc_size)) :
    toData s = (.ok s.mem_buf,
      { s with writer := false, mem_stream := false, mem_buf := [], closed := true }) := by
  obtain ⟨im, cl, ast, mas, rd, wr, ms, mb, pw, ar, wf, se⟩ := s
  simp only at h1 h2 h3 h4 h5
  subst h1
  subst h2
  cases wr <;>
    (simp_all [toData]; rw [if_neg (not_lt.mpr h3), if_neg (not_lt.mpr h5)])

/-! Claim theorems. -/

/-- C2: the path security validator rejects an extraction entry name —
raising a security-classified error — exactly when the name starts with
`/`, contains a `..` segment at the start or after a `/` followed by
end-of-string, `/` or `\`, or contains a backslash; the concrete table
(`../x`, `..`, `a/../b`, `/abs/path`, `a\b` rejected; `a..b`, `dir/`
accepted) holds, and a name ending in `/` is classified as a directory in
entry info. -/
theorem validator_rejects_exactly_spec :
    (∀ name : String, validateExtractPath name = none ↔ ¬ specRejected name) ∧
    validateExtractPath "../x" = some .traversal ∧
    validateExtractPath ".." = some .traversal ∧
    validateExtractPath "a/../b" = some .traversal ∧
    validateExtractPath "a..b" = none ∧
    validateExtractPath "/abs/path" = some .absolutePath ∧
    validateExtractPath "a\\b" = some .backslash ∧
    validateExtractPath "dir/" = none ∧
    (∀ f : MzZipFile, (createEntryInfo f).is_directory = true ↔
      f.filename.data.getLast? = some '/') ∧
    (createEntryInfo ⟨"dir/", 0, 0, 0, 0, 0, 0, ""⟩).is_directory = true :=
  ⟨validateExtractPath_none_iff, by decide, by decide, by decide, by decide, by decide,
    by decide, by decide, fun f => by simp [createEntryInfo], by decide⟩

/-- C3: extractAll validates every entry name with the path security
validator before any extraction is delegated to the codec: if any entry
name fails validation it raises the security error with `save_all` never
reached, and `save_all` is reached only when every entry name validated. -/
theorem extractAll_validates_before_extracting (s : ZipSession) (pw : Option String)
    (hc : s.closed = false) (hr : s.reader = true) (hw : s.walk_fail = none) :
    ((∃ ce ∈ s.archive, validateExtractPath ce.info.filename ≠ none) →
      ∃ nm k, extractAll s pw = ⟨some (.security nm k), false⟩) ∧
    ((extractAll s pw).save_all_called = true →
      ∀ ce ∈ s.archive, validateExtractPath ce.info.filename = none) := by
  have hopen : checkOpenUnlocked s false = none := checkOpen_read_none s hc hr
  have hvis : walkVisited s = s.archive := by simp [walkVisited, hw]
  constructor
  · rintro ⟨ce, hmem, hbad⟩
    cases hfi : firstInvalid (walkVisited s) with
    | none =>
      rw [hvis] at hfi
      exact absurd ((firstInvalid_eq_none _).1 hfi ce hmem) hbad
    | some p =>
      obtain ⟨nm, k⟩ := p
      exact ⟨nm, k, by simp [extractAll, hopen, hfi]⟩
  · intro hsave
    cases hfi : firstInvalid (walkVisited s) with
    | none =>
      rw [← hvis]
      exact (firstInvalid_eq_none _).1 hfi
    | some p =>
      obtain ⟨nm, k⟩ := p
      simp [extractAll, hopen, hfi] at hsave

/-- C3 witness: on a session whose archive contains the entry `../x`,
extractAll raises a security error without reaching `save_all`. -/
theorem extractAll_validates_before_extracting_witness :
    ∃ nm k, extractAll badSession none = ⟨some (.security nm k), false⟩ := by
  refine (extractAll_validates_before_extracting badSession none rfl rfl rfl).1
    ⟨sampleEntryBad, ?_, by decide⟩
  show sampleEntryBad ∈ [sampleEntryTxt, sampleEntryBad]
  exact List.Mem.tail _ (List.Mem.head _)

/-- C4: reading an entry whose declared uncompressed size exceeds
`max_alloc_size` fails with the resource-limit error before the entry is
opened and before any buffer is allocated. -/
theorem read_limit_checked_before_open (s : ZipSession) (name : String) (ce : CodecEntry)
    (hc : s.closed = false) (hr : s.reader = true)
    (hfind : s.archive.find? (fun c => c.info.filename = name) = some ce)
    (hm : 0 ≤ s.max_alloc_size)
    (hsz : (ce.info.uncompressed_size : Int) > s.max_alloc_size) :
    read s name =
      (.error (.allocLimit ce.info.uncompressed_size s.max_alloc_size), ⟨false, none⟩) := by
  have hz : ce.info.uncompressed_size ≠ 0 := by
    intro h0
    rw [h0] at hsz
    exact absurd hm (by simpa using hsz)
  have hopen : checkOpenUnlocked s false = none := checkOpen_read_none s hc hr
  simp [read, hopen, hfind, hz, hsz]

/-- C4 witness: the 2000-byte entry in a session with a 1024-byte ceiling
fails with the resource-limit error, with no entry open and no
allocation. -/
theorem read_limit_checked_before_open_witness :
    read readSession "big.bin" = (.error (.allocLimit 2000 1024), ⟨false, none⟩) :=
  read_limit_checked_before_open readSession "big.bin" sampleEntryBig rfl rfl rfl
    (by decide) (by decide)

/-- C10: when the codec's single entry read reports a non-negative byte
count smaller than the declared uncompressed size, read raises no error and
returns a binary of exactly the reported length, never checking it against
the declared size. -/
theorem read_trusts_codec_count (s : ZipSession) (name : String) (ce : CodecEntry)
    (bytes : List Nat)
    (hc : s.closed = false) (hr : s.reader = true)
    (hfind : s.archive.find? (fun c => c.info.filename = name) = some ce)
    (hz : ce.info.uncompressed_size ≠ 0)
    (hle : ¬ (ce.info.uncompressed_size : Int) > s.max_alloc_size)
    (hopen : ce.open_err = MZ_OK)
    (hread : ce.read_res = .ok bytes)
    (hshort : bytes.length < ce.info.uncompressed_size) :
    read s name = (.ok bytes, ⟨true, some ce.info.uncompressed_size⟩) ∧
      bytes.length ≠ ce.info.uncompressed_size := by
  have hopen2 : checkOpenUnlocked s false = none := checkOpen_read_none s hc hr
  exact ⟨by simp [read, hopen2, hfind, hz, hle, hopen, hread], Nat.ne_of_lt hshort⟩

/-- C10 witness: the entry declaring 5 bytes for which the codec reports 2
bytes yields a 2-byte binary and no error. -/
theorem read_trusts_codec_count_witness :
    read readSession "s.bin" = (.ok [7, 8], ⟨true, some 5⟩) :=
  (read_trusts_codec_count readSession "s.bin" sampleEntryShort [7, 8] rfl rfl rfl
    (by decide) (by decide) rfl rfl (by decide)).1

/-- C9: when the directory walk is interrupted by a codec error other than
the end-of-list marker, count succeeds with the number of entries visited —
smaller than the archive's true entry count — while entries raises an
archive error. -/
theorem count_ok_entries_fail_on_walk_error (s : ZipSession) (k : Nat) (e : Int)
    (hc : s.closed = false) (hr : s.reader = true)
    (hw : s.walk_fail = some (k, e)) (hk : k < s.archive.length)
    (hend : e ≠ MZ_END_OF_LIST) (hok : e ≠ MZ_OK) :
    count s = .ok (k : Int) ∧ (k : Int) < (s.archive.length : Int) ∧
      entries s = .error (.entriesWalk e) := by
  have hopen : checkOpenUnlocked s false = none := checkOpen_read_none s hc hr
  have hvis : walkVisited s = s.archive.take k := by simp [walkVisited, hw]
  have hendc : walkEndCode s = e := by simp [walkEndCode, hw]
  refine ⟨?_, by exact_mod_cast hk, ?_⟩
  · simp [count, hopen, hvis, countLoop_eq, List.length_take,
      Nat.min_eq_left (le_of_lt hk)]
  · simp [entries, hopen, hendc, hend, hok]

/-- C9 witness: a three-entry archive whose walk fails with code `-3` after
one entry: count returns 1 (below the true count 3) and entries fails. -/
theorem count_ok_entries_fail_on_walk_error_witness :
    count walkFailSession = .ok 1 ∧ (1 : Int) < 3 ∧
      entries walkFailSession = .error (.entriesWalk (-3)) :=
  count_ok_entries_fail_on_walk_error walkFailSession 1 (-3) rfl rfl rfl (by decide)
    (by decide) (by decide)

/-- C1 counterexample: a file-backed session with one active stream fails
toData with the not-in-memory error — not a busy error — and an in-memory
session with a zero allocation ceiling still fails toData with the
resource-limit error after its only stream has been disposed, instead of
succeeding. -/
theorem busy_invariant_counterexample :
    busyFileSession.active_streams = 1 ∧
    (toData busyFileSession).1 = .error .notInMemory ∧
    busyMemSession.active_streams = 1 ∧
    (disposeStream busyMemSession).active_streams = 0 ∧
    (toData (disposeStream busyMemSession)).1 = .error (.allocLimit 1 0) := by
  exact ⟨rfl, rfl, rfl, rfl, rfl⟩

/-- C1 (amended): for every session with `active_streams > 0` (such
sessions are not closed), close fails with a busy error, and toData fails —
with a busy error when the session is in-memory, with the not-in-memory
error otherwise — and neither call mutates the session (no closed flag set,
no handle released); disposing a stream decrements the live-stream counter,
and for every session with no active streams close succeeds, while toData
on an in-memory, not-yet-closed session succeeds provided the finalized
buffer is non-empty and within `max_alloc_size`. -/
theorem busy_invariant_amended :
    (∀ s : ZipSession, s.active_streams > 0 → s.closed = false →
      close s = (some (.busy s.active_streams), s)) ∧
    (∀ s : ZipSession, s.active_streams > 0 → s.closed = false → s.in_memory = true →
      toData s = (.error (.busy s.active_streams), s)) ∧
    (∀ s : ZipSession, s.in_memory = false → toData s = (.error .notInMemory, s)) ∧
    (∀ s : ZipSession, (disposeStream s).active_streams = s.active_streams - 1) ∧
    (∀ s : ZipSession, ¬ s.active_streams > 0 → (close s).1 = none) ∧
    (∀ s : ZipSession, ¬ s.active_streams > 0 → s.in_memory = true → s.closed = false →
      s.mem_buf.length ≠ 0 → ¬ (s.mem_buf.length : Int) > s.max_alloc_size →
      (toData s).1 = .ok s.mem_buf) := by
  refine ⟨?_, ?_, ?_, ?_, ?_, ?_⟩
  · intro s hgt hc
    simp [close, hc, hgt]
  · intro s hgt hc hm
    exact toData_busy_err s hm hc hgt
  · intro s hm
    exact toData_not_in_memory s hm
  · intro s
    rfl
  · intro s h
    by_cases hc : s.closed <;> simp [close, hc, h]
  · intro s h hm hc h4 h5
    rw [toData_success s hm hc h h4 h5]

/-- C1 amended witness: the busy in-memory session fails close with the
busy error, and the ready in-memory session finalizes successfully. -/
theorem busy_invariant_amended_witness :
    close busyMemSession = (some (.busy 1), busyMemSession) ∧
    (toData okMemSession).1 = .ok [1, 2] := by
  constructor
  · exact busy_invariant_amended.1 busyMemSession (by decide) rfl
  · exact busy_invariant_amended.2.2.2.2.2 okMemSession (by decide) rfl rfl (by decide)
      (by decide)

/-- C5: toData is single-shot: it succeeds only on an in-memory session
that is not closed and has no active streams; a successful call marks the
session closed and a second call fails with the already-closed error, while
on a non-in-memory session toData always fails. -/
theorem toData_single_shot :
    (∀ (s : ZipSession) (r : List Nat) (s' : ZipSession), toData s = (.ok r, s') →
      s.in_memory = true ∧ s.closed = false ∧ ¬ s.active_streams > 0 ∧
      s'.closed = true ∧ toData s' = (.error .alreadyClosed, s')) ∧
    (∀ s : ZipSession, s.in_memory = false → toData s = (.error .notInMemory, s)) := by
  constructor
  · intro s r s' h
    have h1 : s.in_memory = true := by
      by_contra hn
      rw [toData_not_in_memory s (by simpa using hn)] at h
      exact absurd h (by simp)
    have h2 : s.closed = false := by
      by_contra hn
      rw [toData_already_closed s h1 (by simpa using hn)] at h
      exact absurd h (by simp)
    have h3 : ¬ s.active_streams > 0 := by
      intro hgt
      rw [toData_busy_err s h1 h2 hgt] at h
      exact absurd h (by simp)
    have h4 : s.mem_buf.length ≠ 0 := by
      intro h0
      by_cases hw : s.writer <;> simp [toData, h1, h2, h3, h0, hw] at h
    have h5 : ¬ (s.mem_buf.length : Int) > s.max_alloc_size := by
      intro hgt
      by_cases hw : s.writer <;> simp [toData, h1, h2, h3, h4, hgt, hw] at h
    rw [toData_success s h1 h2 h3 h4 h5, Prod.ext_iff] at h
    obtain ⟨-, hsnd⟩ := h
    subst hsnd
    exact ⟨h1, h2, h3, rfl, toData_already_closed _ h1 rfl⟩
  · intro s hm
    exact toData_not_in_memory s hm

/-- C5 witness: finalizing the ready in-memory session succeeds and a
second toData call on the resulting session fails with the already-closed
error. -/
theorem toData_single_shot_witness :
    (toData (toData okMemSession).2).1 = .error .alreadyClosed := by
  have h := toData_single_shot.1 okMemSession [1, 2] (toData okMemSession).2 rfl
  rw [h.2.2.2.2]

/-- C8: close is idempotent on a session with no active streams: the first
call succeeds, and a second call succeeds as well, raising no error and
leaving the state unchanged. -/
theorem close_idempotent_no_streams (s : ZipSession) (h : ¬ s.active_streams > 0) :
    (close s).1 = none ∧ close (close s).2 = (none, (close s).2) := by
  by_cases hc : s.closed
  · simp [close, hc]
  · simp [close, hc, h]

/-- C8 witness: closing the sample read session twice succeeds both times
with no state change on the second call. -/
theorem close_idempotent_no_streams_witness :
    (close readSession).1 = none ∧
      close (close readSession).2 = (none, (close readSession).2) :=
  close_idempotent_no_streams readSession (by decide)

/-- C6: interleavings of peek and read deliver exactly the entry's bytes
in order: every successful read with positive limit delivers a prefix of
the available bytes and leaves exactly the remainder (a peeked byte is
consumed exactly once, never duplicated or dropped); peek never changes
the available bytes and returns the next one (or `-1` at end); once the
end-of-stream flag is set every read returns 0 bytes without calling the
codec; and a read with positive limit at exhaustion returns 0 bytes and
sets the sticky flag. -/
theorem input_stream_no_dup_no_drop :
    (∀ (st : ZipInputStream) (limit : Int), st.entry_open = true → st.eof = false →
      0 < limit → ∃ bs, (zisRead st limit).res = .ok bs ∧
        bs ++ zisAvail (zisRead st limit).st = zisAvail st) ∧
    (∀ st : ZipInputStream, st.entry_open = true →
      zisAvail (zisPeek st).st = zisAvail st) ∧
    (∀ st : ZipInputStream, st.entry_open = true → st.eof = false →
      (zisPeek st).res = .ok ((zisAvail st).head?.elim (-1) (fun b => (b : Int)))) ∧
    (∀ (st : ZipInputStream) (limit : Int), st.entry_open = true → st.eof = true →
      zisRead st limit = ⟨.ok [], st, 0⟩) ∧
    (∀ (st : ZipInputStream) (limit : Int), st.entry_open = true → st.eof = false →
      0 < limit → zisAvail st = [] →
      (zisRead st limit).res = .ok [] ∧ (zisRead st limit).st.eof = true) := by
  refine ⟨?_, ?_, ?_, ?_, ?_⟩
  · intro st limit hop heof hlim
    by_cases hp : st.peek_byte ≥ 0
    · by_cases hl : limit - 1 ≤ 0
      · exact ⟨[st.peek_byte.toNat], by simp [zisRead, hop, heof, hp, hl],
          by simp [zisRead, zisAvail, hop, heof, hp, hl]⟩
      · refine ⟨st.peek_byte.toNat ::
          st.rest.take (min (limit - 1).toNat st.rest.length), ?_, ?_⟩
        · simp [zisRead, hop, heof, hp, hl]
        · simp [zisRead, zisAvail, hop, heof, hp, hl, List.take_append_drop]
    · refine ⟨st.rest.take (min limit.toNat st.rest.length), ?_, ?_⟩
      · simp [zisRead, hop, heof, hp]
      · simp [zisRead, zisAvail, hop, heof, hp, List.take_append_drop]
  · intro st hop
    by_cases he : st.eof
    · simp [zisPeek, hop, he]
    · by_cases hp : st.peek_byte ≥ 0
      · simp [zisPeek, hop, he, hp]
      · cases hr : st.rest with
        | nil => simp [zisPeek, zisAvail, hop, he, hp, hr]
        | cons b rest' =>
          simp [zisPeek, zisAvail, hop, he, hp, hr, Int.natCast_nonneg]
  · intro st hop heof
    by_cases hp : st.peek_byte ≥ 0
    · simp [zisPeek, zisAvail, hop, heof, hp, Int.toNat_of_nonneg hp]
    · cases hr : st.rest with
      | nil => simp [zisPeek, zisAvail, hop, heof, hp, hr]
      | cons b rest' => simp [zisPeek, zisAvail, hop, heof, hp, hr]
  · intro st limit hop heof
    simp [zisRead, hop, heof]
  · intro st limit hop heof hlim havail
    have hp : ¬ st.peek_byte ≥ 0 := by
      intro hp
      simp [zisAvail, hp] at havail
    have hrest : st.rest = [] := by
      simpa [zisAvail, hp] using havail
    constructor <;> simp [zisRead, hop, heof, hp, hrest]

/-- C6 witness: on the open sample stream, a 2-byte read delivers a prefix
of the available bytes leaving the remainder, and a peek leaves the
available bytes unchanged. -/
theorem input_stream_no_dup_no_drop_witness :
    (∃ bs, (zisRead sampleInput 2).res = .ok bs ∧
      bs ++ zisAvail (zisRead sampleInput 2).st = zisAvail sampleInput) ∧
    zisAvail (zisPeek sampleInput).st = zisAvail sampleInput :=
  ⟨input_stream_no_dup_no_drop.1 sampleInput 2 rfl rfl (by decide),
    input_stream_no_dup_no_drop.2.1 sampleInput rfl⟩

/-- C7: on an open, not-closed output stream, a write request of
`count ≤ 0` makes no codec call and raises no error; a request of
`count > 0` makes exactly one codec call; and a short write — the codec
reporting `0 ≤ written < count` — raises the short-write error after that
single call, with no retry. -/
theorem output_stream_write_contract (st : ZipOutputStream) (count w : Int)
    (hop : st.entry_open = true) (hcl : st.closed = false) :
    (count ≤ 0 → zosWrite st count w = ⟨none, 0⟩) ∧
    (0 < count → (zosWrite st count w).codec_calls = 1) ∧
    (0 < count → 0 ≤ w → w < count → zosWrite st count w = ⟨some (.shortWrite w count), 1⟩) := by
  refine ⟨?_, ?_, ?_⟩
  · intro hle
    simp [zosWrite, hop, hcl, hle]
  · intro hgt
    have h1 : ¬ count ≤ 0 := by omega
    by_cases hw1 : w < 0
    · simp [zosWrite, hop, hcl, h1, hw1]
    · by_cases hw2 : w = count
      · have h2 : ¬ count < 0 := by omega
        simp [zosWrite, hop, hcl, h1, hw2, h2]
      · simp [zosWrite, hop, hcl, h1, hw1, hw2]
  · intro hgt hw0 hlt
    have h1 : ¬ count ≤ 0 := by omega
    have h2 : ¬ w < 0 := by omega
    have h3 : w ≠ count := by omega
    simp [zosWrite, hop, hcl, h1, h2, h3]

/-- C7 witness: on the open sample output stream, a write of 0 bytes makes
no codec call, and a 4-byte write for which the codec reports 2 bytes
raises the short-write error after one codec call. -/
theorem output_stream_write_contract_witness :
    zosWrite sampleOutput 0 0 = ⟨none, 0⟩ ∧
    zosWrite sampleOutput 4 2 = ⟨some (.shortWrite 2 4), 1⟩ :=
  ⟨(output_stream_write_contract sampleOutput 0 0 rfl rfl).1 (by decide),
    (output_stream_write_contract sampleOutput 4 2 rfl rfl).2.2 (by decide) (by decide)
      (by decide)⟩

end Zip
